import Mathlib

set_option maxRecDepth 40000
set_option maxHeartbeats 1000000

namespace Lox

/-!
Verification development for the tree-walking Lox interpreter in this
repository.  The definitions below are a shallow embedding of the source
files src/lexer.rs, src/environment.rs, src/evaluate.rs and src/function.rs:
pure Rust functions become Lean functions, the mutable interpreter state
(the Rc/RefCell environment graph and stdout) becomes an explicit state
record threaded through a fuel-indexed recursion, and the non-local exits
of the Rust code (RuntimeError values, process::exit, panics) become
explicit result constructors.
-/

/-- Literal payloads of the evaluator's AST (the `Literal` values consumed by
evaluate.rs).  IEEE-754 doubles are modelled as exact integers: no claim in
this development depends on fractional or rounding behaviour of numbers. -/
inductive Lit where
  | number (n : Int)
  | string (s : String)
  | boolean (b : Bool)
  | None

/-- Operator tags of the token type used by evaluate.rs (only the tags the
evaluator dispatches on are modelled; operator tokens in the AST are carried
as a tag plus the token's line). -/
inductive RTokenType where
  | MINUS | PLUS | SLASH | STAR | BANG
  | GREATER | GREATER_EQUAL | LESS | LESS_EQUAL
  | BANG_EQUAL | EQUAL_EQUAL | OR | AND

/-- Expression AST of parse.rs (`Expr`).  Tokens that the evaluator only reads
the lexeme and line of are carried as a `String` name plus a `Nat` line; the
closing-paren token of a call is carried as its line. -/
inductive Expr where
  | Assign (name : String) (line : Nat) (value : Expr)
  | Binary (left : Expr) (operator : RTokenType) (line : Nat) (right : Expr)
  | Call (callee : Expr) (paren_line : Nat) (arguments : List Expr)
  | Grouping (expression : Expr)
  | Literal (value : Lit)
  | Logical (left : Expr) (operator : RTokenType) (line : Nat) (right : Expr)
  | Unary (operator : RTokenType) (line : Nat) (right : Expr)
  | Variable (name : String) (line : Nat)
  | Null

/-- Statement AST of parse.rs (`Stmt`).  The keyword token of `Return` is not
modelled (the evaluator never reads it); a bare `return;` carries `Expr.Null`,
matching the `Expr::Null` representation used by parse.rs and resolver.rs. -/
inductive Stmt where
  | Block (statements : List Stmt)
  | Expression (e : Expr)
  | Function (name : String) (parameter : List String) (body : List Stmt)
  | If (condition : Expr) (then_branch : Stmt) (else_branch : Option Stmt)
  | Print (e : Expr)
  | Return (value : Expr)
  | Var (name : String) (initializer : Expr)
  | While (condition : Expr) (body : Stmt)

/-- Callable runtime values: the native `Clock` and `LoxFunction` from
function.rs.  A `LoxFunction` stores its name and parameter lexemes, its body,
and the index of its captured closure environment in the heap below. -/
inductive Callable where
  | clock
  | user (name : String) (parameter : List String) (body : List Stmt) (closure : Nat)

/-- Runtime values of evaluate.rs (`Value`). -/
inductive Value where
  | number (n : Int)
  | string (s : String)
  | boolean (b : Bool)
  | nil
  | fn (f : Callable)

/-- The `arity` methods of the `LoxCallable` impls in function.rs. -/
def Callable.arity : Callable → Nat
  | .clock => 0
  | .user _ parameter _ _ => parameter.length

/-- Whether a value is callable, i.e. a `Value::Function`. -/
def Value.is_callable : Value → Bool
  | .fn _ => true
  | _ => false

/-- First-match lookup in an association list; the observable content of a
`HashMap<String, Value>`. -/
def lookupA : List (String × Value) → String → Option Value
  | [], _ => none
  | p :: rest, k => if p.1 = k then some p.2 else lookupA rest k

/-- The `HashMap::contains_key` test on the association-list model. -/
def containsK (l : List (String × Value)) (k : String) : Bool :=
  (lookupA l k).isSome

/-- The `HashMap::insert` operation on the association-list model: replace the
existing entry for the key, or append a fresh one. -/
def hmInsert (l : List (String × Value)) (k : String) (v : Value) : List (String × Value) :=
  if containsK l k then l.map (fun p => if p.1 = k then (k, v) else p)
  else l ++ [(k, v)]

/-- One `Environment` cell of environment.rs as it lives behind an
`Rc<RefCell<..>>` in evaluate.rs: the parent pointer is an index into a heap
of frames, so that the aliasing of environments (globals, closures, the
`current` pointer) is modelled faithfully. -/
structure Frame where
  enclosing : Option Nat
  values : List (String × Value)

/-- The interpreter state of evaluate.rs: the environment heap (`globals` is
always frame 0), the `environment` field (index of the current environment),
and the lines written to stdout so far. -/
structure St where
  heap : List Frame
  env : Nat
  output : List String

/-- The chain walk of `Environment::get` (environment.rs:48-60) over the frame
heap.  The fuel bounds the walk; callers pass `heap.length + 1`, enough for
every acyclic chain. -/
def env_get : Nat → List Frame → Nat → String → Option Value
  | 0, _, _, _ => none
  | fuel+1, heap, i, name =>
    match heap.get? i with
    | none => none
    | some fr =>
      match lookupA fr.values name with
      | some v => some v
      | none =>
        match fr.enclosing with
        | some p => env_get fuel heap p name
        | none => none

/-- Read a variable from the current environment of a state, as
`visit_variable_expr` does. -/
def St.getVar (st : St) (name : String) : Option Value :=
  env_get (st.heap.length + 1) st.heap st.env name

/-- Read a variable as an integer, for stating theorems without needing
decidable equality of arbitrary values. -/
def St.readNum (st : St) (name : String) : Option Int :=
  match St.getVar st name with
  | some (.number n) => some n
  | _ => none

/-- The chain walk of `Environment::assign` (environment.rs:32-46) over the
frame heap: mutate the nearest frame that already contains the name, or
report failure (`None`) when no frame in the chain does. -/
def env_assign : Nat → List Frame → Nat → String → Value → Option (List Frame)
  | 0, _, _, _, _ => none
  | fuel+1, heap, i, name, v =>
    match heap.get? i with
    | none => none
    | some fr =>
      if containsK fr.values name then
        some (heap.set i { fr with values := hmInsert fr.values name v })
      else
        match fr.enclosing with
        | some p => env_assign fuel heap p name v
        | none => none

/-- The `Environment::define` call on the current environment
(`self.environment.borrow_mut().define(..)`). -/
def define_in_current (st : St) (name : String) (v : Value) : St :=
  match st.heap.get? st.env with
  | some fr => { st with heap := st.heap.set st.env { fr with values := hmInsert fr.values name v } }
  | none => st

/-- Structural view of environment.rs's recursive `Environment` type itself
(`enclosing : Option<Rc<RefCell<Environment>>>`, `values : HashMap`): `root`
is the cell with no enclosing environment, `child` carries its enclosing
chain inline.  Used to verify `Environment::assign` as a function of one
chain. -/
inductive Environment where
  | root (values : List (String × Value))
  | child (values : List (String × Value)) (enclosing : Environment)

/-- The `Environment::assign` method (environment.rs:32-46) on the structural
chain: the returned pair is the `Result` (an error message and line, built
from the name token as in the source) together with the post-state of the
chain, modelling the in-place mutation behind `&mut self`. -/
def Environment.assign : Environment → String → Nat → Value → Option (String × Nat) × Environment
  | .root values, name, line, v =>
    if containsK values name then (none, .root (hmInsert values name v))
    else (some ("Undefined variable '" ++ name ++ "'.", line), .root values)
  | .child values enclosing, name, line, v =>
    if containsK values name then (none, .child (hmInsert values name v) enclosing)
    else
      let r := Environment.assign enclosing name line v
      (r.1, .child values r.2)

/-- Whether any environment of the chain defines the name. -/
def Environment.chainContains : Environment → String → Bool
  | .root values, name => containsK values name
  | .child values enclosing, name => containsK values name || Environment.chainContains enclosing name

/-- Depth of the nearest enclosing environment that defines the name
(meaningful when `chainContains` holds; 0 is the innermost frame). -/
def Environment.nearestDepth : Environment → String → Nat
  | .root _, _ => 0
  | .child values enclosing, name =>
    if containsK values name then 0 else Environment.nearestDepth enclosing name + 1

/-- Observable binding of a chain at a given depth and key. -/
def Environment.frameLookup : Environment → Nat → String → Option Value
  | .root values, 0, k => lookupA values k
  | .root _, _+1, _ => none
  | .child values _, 0, k => lookupA values k
  | .child _ enclosing, i+1, k => Environment.frameLookup enclosing i k

/-- Result of running a piece of the interpreter.  `ok` is a normal value
plus post-state; `rerr` is a propagating `RuntimeError::Error` (message and
line); `ret` is a propagating `RuntimeError::Return`; `exited` records that
the Rust code called `process::exit` (absorbing, nothing runs afterwards);
`panicked` records a Rust panic (`Option::unwrap` on `None`); `oof` is
exhaustion of the model's fuel (an artifact, never reached by the concrete
runs below). -/
inductive Res (α : Type) where
  | ok (a : α) (s : St)
  | rerr (message : String) (line : Nat) (s : St)
  | ret (v : Value) (s : St)
  | exited (code : Nat) (s : St)
  | panicked (s : St)
  | oof

/-- Sequencing that propagates every non-`ok` outcome, the `?` operator of the
Rust code. -/
def Res.bind {α β : Type} : Res α → (α → St → Res β) → Res β
  | .ok a s, f => f a s
  | .rerr m l s, _ => .rerr m l s
  | .ret v s, _ => .ret v s
  | .exited c s, _ => .exited c s
  | .panicked s, _ => .panicked s
  | .oof, _ => .oof

/-- Stdout lines of the state carried by a result, if any. -/
def Res.outOf {α : Type} : Res α → Option (List String)
  | .ok _ s => some s.output
  | .rerr _ _ s => some s.output
  | .ret _ s => some s.output
  | .exited _ s => some s.output
  | .panicked s => some s.output
  | .oof => none

/-- Message and line of a propagating runtime error, if the result is one. -/
def Res.errInfo {α : Type} : Res α → Option (String × Nat)
  | .rerr m l _ => some (m, l)
  | _ => none

/-- State carried by a result, if any. -/
def Res.stateOf {α : Type} : Res α → Option St
  | .ok _ s => some s
  | .rerr _ _ s => some s
  | .ret _ s => some s
  | .exited _ s => some s
  | .panicked s => some s
  | .oof => none

/-- Whether the result records a Rust panic. -/
def Res.isPanic {α : Type} : Res α → Bool
  | .panicked _ => true
  | _ => false

/-- The `is_truthy` helper of evaluate.rs:487-493. -/
def is_truthy : Value → Bool
  | .nil => false
  | .boolean b => b
  | _ => true

/-- The `is_equal` helper of evaluate.rs:495-503; the epsilon comparison of
numbers degenerates to exact equality on the integer model. -/
def is_equal : Value → Value → Bool
  | .nil, .nil => true
  | .boolean a, .boolean b => a == b
  | .number a, .number b => a == b
  | .string a, .string b => a == b
  | _, _ => false

/-- The `number_operation` helper of evaluate.rs:466-485: both operands must
be numbers, otherwise a runtime error at the operator's line. -/
def number_operation (left right : Value) (line : Nat) (st : St) (op : Int → Int → Value) : Res Value :=
  match left, right with
  | .number a, .number b => .ok (op a b) st
  | _, _ => .rerr "Operands must be numbers." line st

/-- The arity-mismatch message built at evaluate.rs:196-200. -/
def arity_error_message (n m : Nat) : String :=
  "Expected " ++ toString n ++ " arguments but got " ++ toString m ++ "."

/-- The `Display` impl for values (evaluate.rs:20-30). -/
def Value.display : Value → String
  | .number n => toString n
  | .string s => s
  | .boolean b => if b then "true" else "false"
  | .nil => "nil"
  | .fn .clock => "<native fn>"
  | .fn (.user name _ _ _) => "<fn " ++ name ++ ">"

/-- The `visit_variable_expr` method (evaluate.rs:323-325), with the
`Undefined variable` error constructed by `Environment::get`. -/
def visit_variable_expr (st : St) (name : String) (line : Nat) : Res Value :=
  match St.getVar st name with
  | some v => .ok v st
  | none => .rerr ("Undefined variable '" ++ name ++ "'.") line st

/-- The `visit_function_stmt` method (evaluate.rs:171-176).  Modelled from the
spec in one respect: the source calls `LoxFunction::new(name, parameter,
body)` while `LoxFunction::new` (function.rs:50-62) requires a fourth
`closure` argument, so the crate does not compile as written; following the
spec (a `Function` declaration binds the current environment pointer into the
function value) the missing argument is modelled as the current environment
index. -/
def visit_function_stmt (st : St) (name : String) (parameter : List String) (body : List Stmt) : St :=
  define_in_current st name (.fn (.user name parameter body st.env))

mutual

/-- The `evaluate` expression dispatcher of evaluate.rs:362-464.  The fuel
decreases on every nested call; all runs below use fuel far above the depth
they need. -/
def evaluate : Nat → St → Expr → Res Value
  | 0, _, _ => .oof
  | n+1, st, e =>
    match e with
    | .Literal v =>
      match v with
      | .boolean b => .ok (.boolean b) st
      | .number x => .ok (.number x) st
      | .string s => .ok (.string s) st
      | .None => .ok .nil st
    | .Grouping expression => evaluate n st expression
    | .Unary operator line right =>
      Res.bind (evaluate n st right) fun rv st1 =>
        match operator with
        | .MINUS =>
          match rv with
          | .number x => .ok (.number (-x)) st1
          | _ => .rerr "Operand must be a number." line st1
        | .BANG => .ok (.boolean (!is_truthy rv)) st1
        | _ => .rerr "Invalid unary operator." line st1
    | .Variable name line => visit_variable_expr st name line
    | .Assign name line value => visit_assign_expr n st name line value
    | .Logical left operator line right => visit_logical_expr n st left operator line right
    | .Call callee paren_line arguments => visit_call_expr n st callee paren_line arguments
    | .Binary left operator line right =>
      Res.bind (evaluate n st left) fun lv st1 =>
      Res.bind (evaluate n st1 right) fun rv st2 =>
        match operator with
        | .MINUS => number_operation lv rv line st2 (fun a b => .number (a - b))
        | .SLASH => number_operation lv rv line st2 (fun a b => .number (a / b))
        | .STAR => number_operation lv rv line st2 (fun a b => .number (a * b))
        | .PLUS =>
          match lv, rv with
          | .number a, .number b => .ok (.number (a + b)) st2
          | .string a, .string b => .ok (.string (a ++ b)) st2
          | _, _ => .rerr "Operands must be two numbers or two strings." line st2
        | .GREATER => number_operation lv rv line st2 (fun a b => .boolean (decide (a > b)))
        | .GREATER_EQUAL => number_operation lv rv line st2 (fun a b => .boolean (decide (a ≥ b)))
        | .LESS => number_operation lv rv line st2 (fun a b => .boolean (decide (a < b)))
        | .LESS_EQUAL => number_operation lv rv line st2 (fun a b => .boolean (decide (a ≤ b)))
        | .BANG_EQUAL => .ok (.boolean (!is_equal lv rv)) st2
        | .EQUAL_EQUAL => .ok (.boolean (is_equal lv rv)) st2
        | _ => .rerr "Invalid binary operator." line st2
    | .Null => .rerr "" 0 st

termination_by structural n st e => n

/-- The `visit_assign_expr` method (evaluate.rs:327-338): evaluate the value,
then `Environment::assign` on the current chain; the error message and line
come from the name token as environment.rs builds them. -/
def visit_assign_expr : Nat → St → String → Nat → Expr → Res Value
  | 0, _, _, _, _ => .oof
  | n+1, st, name, line, valueExpr =>
    Res.bind (evaluate n st valueExpr) fun v st1 =>
      match env_assign (st1.heap.length + 1) st1.heap st1.env name v with
      | some heap2 => .ok v { st1 with heap := heap2 }
      | none => .rerr ("Undefined variable '" ++ name ++ "'.") line st1

termination_by structural n st name line v => n

/-- The `visit_logical_expr` method (evaluate.rs:238-267). -/
def visit_logical_expr : Nat → St → Expr → RTokenType → Nat → Expr → Res Value
  | 0, _, _, _, _, _ => .oof
  | n+1, st, left, operator, line, right =>
    Res.bind (evaluate n st left) fun lv st1 =>
      match operator with
      | .OR => if is_truthy lv then .ok lv st1 else evaluate n st1 right
      | .AND => if !is_truthy lv then .ok lv st1 else evaluate n st1 right
      | _ => .rerr "Unknown logical operator" line st1

termination_by structural n st l op line r => n

/-- The `visit_call_expr` method (evaluate.rs:178-213): evaluate the callee,
then every argument left to right, and only then dispatch on whether the
callee value is callable and on the arity check. -/
def visit_call_expr : Nat → St → Expr → Nat → List Expr → Res Value
  | 0, _, _, _, _ => .oof
  | n+1, st, callee, paren_line, arguments =>
    Res.bind (evaluate n st callee) fun cv st1 =>
    Res.bind (eval_args n st1 arguments) fun evaluated_args st2 =>
      match cv with
      | .fn f =>
        if arguments.length ≠ Callable.arity f then
          .rerr (arity_error_message (Callable.arity f) arguments.length) paren_line st2
        else
          call_callable n st2 f evaluated_args
      | _ => .rerr "Can only call functions and classes." paren_line st2

termination_by structural n st c pl args => n

/-- The argument-evaluation loop of evaluate.rs:186-190, left to right,
propagating the first error. -/
def eval_args : Nat → St → List Expr → Res (List Value)
  | 0, _, _ => .oof
  | _+1, st, [] => .ok [] st
  | n+1, st, a :: rest =>
    Res.bind (evaluate n st a) fun v st1 =>
    Res.bind (eval_args n st1 rest) fun vs st2 =>
      .ok (v :: vs) st2

termination_by structural n st args => n

/-- The `call` methods of function.rs.  `Clock` (function.rs:27-35) is
modelled with a fixed reading of 0, as wall-clock time is outside the model;
`LoxFunction::call` (function.rs:70-86) builds a parameter environment as a
child of the captured closure, binds parameters to arguments pairwise, and
runs the body through `execute_block`, converting a `Return` unwind into the
call's value and normal completion into `Nil`. -/
def call_callable : Nat → St → Callable → List Value → Res Value
  | 0, _, _, _ => .oof
  | _+1, st, .clock, _ => .ok (.number 0) st
  | n+1, st, .user _ parameter body closure, arguments =>
    let vals := (parameter.zip arguments).foldl (fun acc pa => hmInsert acc pa.1 pa.2) []
    let st1 : St := { st with heap := st.heap ++ [{ enclosing := some closure, values := vals }] }
    match execute_block n st1 body (st.heap.length) with
    | .ok _ s => .ok .nil s
    | .ret v s => .ok v s
    | .rerr m l s => .rerr m l s
    | .exited c s => .exited c s
    | .panicked s => .panicked s
    | .oof => .oof

termination_by structural n st f args => n

/-- The `execute` statement dispatcher of evaluate.rs:72-124, including its
treatment of each error kind per statement: an expression statement whose
evaluation fails with a runtime error prints to stderr and exits 70, and when
`flag` is set prints the expression's value to stdout; a `Return` unwind
escaping an expression or print statement is swallowed into `Ok`. -/
def execute : Nat → St → Stmt → Bool → Res Unit
  | 0, _, _, _ => .oof
  | n+1, st, stmt, flag =>
    match stmt with
    | .Expression e =>
      match evaluate n st e with
      | .ok v st1 =>
        if flag then .ok () { st1 with output := st1.output ++ [Value.display v] }
        else .ok () st1
      | .rerr _ _ st1 => .exited 70 st1
      | .ret _ st1 => .ok () st1
      | .exited c s => .exited c s
      | .panicked s => .panicked s
      | .oof => .oof
    | .Print e =>
      match evaluate n st e with
      | .ok v st1 => .ok () { st1 with output := st1.output ++ [Value.display v] }
      | .rerr _ _ st1 => .exited 70 st1
      | .ret _ st1 => .ok () st1
      | .exited c s => .exited c s
      | .panicked s => .panicked s
      | .oof => .oof
    | .Block statements => execute_block n st statements st.env
    | .Var name initializer =>
      match initializer with
      | .Null => .ok () (define_in_current st name .nil)
      | _ =>
        match evaluate n st initializer with
        | .ok v st1 => .ok () (define_in_current st1 name v)
        | .rerr _ _ st1 => .exited 70 st1
        | .ret _ st1 => .ok () st1
        | .exited c s => .exited c s
        | .panicked s => .panicked s
        | .oof => .oof
    | .If condition then_branch else_branch =>
      match visit_if_statement n st condition then_branch else_branch with
      | .ret v s => .ret v s
      | .ok _ s => .ok () s
      | .rerr _ _ s => .ok () s
      | .exited c s => .exited c s
      | .panicked s => .panicked s
      | .oof => .oof
    | .While condition body =>
      match visit_while_stmt n st condition body with
      | .ok _ s => .ok () s
      | .rerr _ _ s => .ok () s
      | .ret _ s => .ok () s
      | .exited c s => .exited c s
      | .panicked s => .panicked s
      | .oof => .oof
    | .Function name parameter body => .ok () (visit_function_stmt st name parameter body)
    | .Return value =>
      match visit_return_stmt n st value with
      | .ok (some v) s => .ret v s
      | .ok none s => .ok () s
      | .rerr _ _ s => .ok () s
      | .ret _ s => .ok () s
      | .exited c s => .exited c s
      | .panicked s => .panicked s
      | .oof => .oof

termination_by structural n st stmt flag => n

/-- The `execute_block` method (evaluate.rs:154-169): point `environment` at
a fresh child of `previous`, then run the statements, propagating any error.
The source never restores the previous environment on any exit path, and
neither does this model. -/
def execute_block : Nat → St → List Stmt → Nat → Res Unit
  | 0, _, _, _ => .oof
  | n+1, st, statements, previous =>
    let st1 : St := { st with heap := st.heap ++ [{ enclosing := some previous, values := [] }],
                              env := st.heap.length }
    exec_stmts n st1 statements

termination_by structural n st stmts prev => n

/-- The statement loop inside `execute_block` (evaluate.rs:160-167), always
with `flag = false`. -/
def exec_stmts : Nat → St → List Stmt → Res Unit
  | 0, _, _ => .oof
  | _+1, st, [] => .ok () st
  | n+1, st, stmt :: rest =>
    Res.bind (execute n st stmt false) fun _ st1 => exec_stmts n st1 rest

termination_by structural n st stmts => n

/-- The `visit_while_stmt` method (evaluate.rs:215-236): a runtime error in
the condition prints and exits 70, a `Return` unwind in the condition returns
from the method; the body is executed with `flag = true` and its result is
dropped, after which the loop re-checks the condition. -/
def visit_while_stmt : Nat → St → Expr → Stmt → Res Unit
  | 0, _, _, _ => .oof
  | n+1, st, condition, body =>
    match evaluate n st condition with
    | .ok v st1 =>
      if is_truthy v then
        match execute n st1 body true with
        | .ok _ s => visit_while_stmt n s condition body
        | .rerr _ _ s => visit_while_stmt n s condition body
        | .ret _ s => visit_while_stmt n s condition body
        | .exited c s => .exited c s
        | .panicked s => .panicked s
        | .oof => .oof
      else .ok () st1
    | .rerr _ _ s => .exited 70 s
    | .ret _ s => .ok () s
    | .exited c s => .exited c s
    | .panicked s => .panicked s
    | .oof => .oof

termination_by structural n st c b => n

/-- The `visit_if_statement` method (evaluate.rs:269-297): a runtime error in
the condition prints and exits 70, a `Return` unwind in the condition is
propagated; branches run with `flag = false` and their result is returned. -/
def visit_if_statement : Nat → St → Expr → Stmt → Option Stmt → Res Unit
  | 0, _, _, _, _ => .oof
  | n+1, st, condition, then_branch, else_branch =>
    match evaluate n st condition with
    | .ok v st1 =>
      if is_truthy v then execute n st1 then_branch false
      else
        match else_branch with
        | some s => execute n st1 s false
        | none => .ok () st1
    | .rerr _ _ s => .exited 70 s
    | .ret v s => .ret v s
    | .exited c s => .exited c s
    | .panicked s => .panicked s
    | .oof => .oof

termination_by structural n st c t e => n

/-- The `visit_return_stmt` method (evaluate.rs:126-148).  For a bare
`return;` the statement value is `Expr::Null`, the local is left `None`, and
the final `value.unwrap()` panics; otherwise the value is evaluated, with a
runtime error printing and exiting 70 and a nested `Return` unwind making the
method yield `None`. -/
def visit_return_stmt : Nat → St → Expr → Res (Option Value)
  | 0, _, _ => .oof
  | n+1, st, stmt_value =>
    match stmt_value with
    | .Null => .panicked st
    | _ =>
      match evaluate n st stmt_value with
      | .ok v s => .ok (some v) s
      | .rerr _ _ s => .exited 70 s
      | .ret _ s => .ok none s
      | .exited c s => .exited c s
      | .panicked s => .panicked s
      | .oof => .oof

termination_by structural n st v => n
end

/-- The initial interpreter state built by `Evaluate::new` plus
`define_globals` (evaluate.rs:57-70): one global frame binding `clock`. -/
def init_st : St :=
  { heap := [{ enclosing := none, values := [("clock", Value.fn Callable.clock)] }],
    env := 0, output := [] }

/-- The top-level statement loop of `evaluate` (evaluate.rs:536-538): each
statement's result is dropped (`evaluate.execute(stmt, flag);`), so only a
process exit or a panic stops the run. -/
def run_stmts : Nat → St → List Stmt → Bool → Res Unit
  | 0, _, _, _ => .oof
  | _+1, st, [], _ => .ok () st
  | n+1, st, stmt :: rest, flag =>
    match execute n st stmt flag with
    | .ok _ st1 => run_stmts n st1 rest flag
    | .rerr _ _ st1 => run_stmts n st1 rest flag
    | .ret _ st1 => run_stmts n st1 rest flag
    | .exited c s => .exited c s
    | .panicked s => .panicked s
    | .oof => .oof

/-- Run a program under the `run` subcommand: the driver invokes the
evaluator with the expression-report flag off (spec 6.1). -/
def run_program (fuel : Nat) (statements : List Stmt) : Res Unit :=
  run_stmts fuel init_st statements false

/-!
Scanner model: src/lexer.rs.  Characters are consumed from an explicit
`List Char` (the `Peekable<Chars>` iterator); the accumulating Rust `String`s
are built as `List Char` and wrapped with `String.mk` when a token is made.
The `had_error` flag and the stderr messages of `Lexer::error` are not
modelled: no claim concerns them, and they do not influence the token
stream. -/

/-- The token tags of lexer.rs (`TokenType`), with the payloads of `STRING`,
`NUMBER` and `IDENTIFIER`. -/
inductive TokenType where
  | LEFT_PAREN | RIGHT_PAREN | LEFT_BRACE | RIGHT_BRACE
  | STAR | DOT | COMMA | PLUS | MINUS | SEMICOLON | SLASH | COMMENT
  | EQUAL | EQUAL_EQUAL | BANG | BANG_EQUAL | LESS | LESS_EQUAL
  | GREATER | GREATER_EQUAL
  | STRING (s : String)
  | NUMBER (org : String) (val : String)
  | IDENTIFIER (s : String)
  | AND | CLASS | ELSE | FALSE | FOR | FUN | IF | NIL | OR | PRINT
  | RETURN | SUPER | THIS | TRUE | VAR | WHILE
  | Eof
  deriving DecidableEq

/-- The `Token` struct of lexer.rs. -/
structure Token where
  token_type : TokenType
  lexeme : String
  line : Nat
  deriving DecidableEq

/-- The `keywords` table of lexer.rs:77-97. -/
def keywords (key : String) : Option TokenType :=
  if key = "and" then some .AND
  else if key = "class" then some .CLASS
  else if key = "else" then some .ELSE
  else if key = "false" then some .FALSE
  else if key = "for" then some .FOR
  else if key = "fun" then some .FUN
  else if key = "if" then some .IF
  else if key = "nil" then some .NIL
  else if key = "or" then some .OR
  else if key = "print" then some .PRINT
  else if key = "return" then some .RETURN
  else if key = "super" then some .SUPER
  else if key = "this" then some .THIS
  else if key = "true" then some .TRUE
  else if key = "var" then some .VAR
  else if key = "while" then some .WHILE
  else none

/-- The `make_token` helper of lexer.rs:336-342. -/
def make_token (token_type : TokenType) (lexeme : String) (line : Nat) : Token :=
  { token_type := token_type, lexeme := lexeme, line := line }

/-- The `match_next` helper of lexer.rs:317-334: consume the next character
when it equals `expected` and produce the two-character token, otherwise the
one-character token without consuming. -/
def match_next (chars : List Char) (current expected : Char)
    (double_type single_type : TokenType) (line : Nat) : Option Token × List Char :=
  match chars with
  | c :: rest =>
    if c = expected then (some (make_token double_type (String.mk [current, expected]) line), rest)
    else (some (make_token single_type (String.mk [current]) line), c :: rest)
  | [] => (some (make_token single_type (String.mk [current]) line), [])

/-- The comment loop of lexer.rs:185-190: consume until just before the next
newline (the newline itself stays in the stream). -/
def skip_comment : List Char → List Char
  | [] => []
  | c :: rest => if c = '\n' then c :: rest else skip_comment rest

/-- The `scan_string` method of lexer.rs:216-241: accumulate until the
closing quote, bumping only a local copy of the line counter on embedded
newlines; reaching the end of input is the `Unterminated string.` error and
produces no token. -/
def scan_string_aux : List Char → Nat → List Char → Option Token × List Char
  | [], _, _ => (none, [])
  | c :: rest, line, value =>
    if c = '"' then
      (some { token_type := .STRING (String.mk value),
              lexeme := "\"" ++ String.mk value ++ "\"", line := line }, rest)
    else if c = '\n' then scan_string_aux rest (line + 1) (value ++ [c])
    else scan_string_aux rest line (value ++ [c])

/-- The scanning loop of `scan_num` (lexer.rs:248-272): `value` drops runs of
zeros after the decimal point unless a nonzero digit follows (buffered in
`zeroes`), `org` keeps every consumed character, `deci` records that a dot
was consumed; any other character breaks the loop unconsumed.  Returns
`(value, org, deci, rest)`. -/
def scan_num_aux : List Char → List Char → List Char → List Char → Bool →
    List Char × List Char × Bool × List Char
  | [], value, org, _, deci => (value, org, deci, [])
  | c :: rest, value, org, zeroes, deci =>
    if c = '0' then
      if deci = true then scan_num_aux rest value (org ++ [c]) (zeroes ++ ['0']) deci
      else scan_num_aux rest (value ++ [c]) (org ++ [c]) zeroes deci
    else if '1' ≤ c ∧ c ≤ '9' then
      scan_num_aux rest ((if zeroes.isEmpty then value else value ++ zeroes) ++ [c])
        (org ++ [c]) [] deci
    else if c = '.' then
      scan_num_aux rest (value ++ [c]) (org ++ [c]) zeroes true
    else (value, org, deci, c :: rest)

/-- The `scan_num` method of lexer.rs:243-285: run the loop, then normalize
`value` (append `.0` when no dot was seen, append `0` to a trailing dot) and
build the `NUMBER` token carrying the original characters and the normalized
value; the lexeme is the normalized value in double quotes, as in the
source. -/
def scan_num (num : Char) (cs : List Char) (line : Nat) : Token × List Char :=
  let r := scan_num_aux cs [num] [num] [] false
  let value := r.1
  let org := r.2.1
  let deci := r.2.2.1
  let rest := r.2.2.2
  let value2 := if !deci then value ++ ['.', '0']
                else if value.getLast? = some '.' then value ++ ['0']
                else value
  ({ token_type := .NUMBER (String.mk org) (String.mk value2),
     lexeme := "\"" ++ String.mk value2 ++ "\"", line := line }, rest)

/-- The scanning loop of `scan_identifier` (lexer.rs:294-300). -/
def scan_identifier_aux : List Char → List Char → List Char × List Char
  | [], acc => (acc, [])
  | c :: rest, acc =>
    if c.isAlphanum = true ∨ c = '_' then scan_identifier_aux rest (acc ++ [c])
    else (acc, c :: rest)

/-- The `scan_identifier` method of lexer.rs:287-315: keyword lexemes are the
identifier itself, plain identifiers get the double-quoted lexeme of the
source. -/
def scan_identifier (id0 : Char) (cs : List Char) (line : Nat) : Token × List Char :=
  let r := scan_identifier_aux cs [id0]
  let ident := String.mk r.1
  match keywords ident with
  | some reserved => ({ token_type := reserved, lexeme := ident, line := line }, r.2)
  | none => ({ token_type := .IDENTIFIER ident, lexeme := "\"" ++ ident ++ "\"", line := line }, r.2)

/-- The `scan_token` dispatcher of lexer.rs:134-214, in source order; the
unexpected-character arm reports on stderr (not modelled) and produces no
token.  ASCII character classes are used for digits, whitespace and
alphanumerics, which agrees with Rust on every input in this development. -/
def scan_token (ch : Char) (chars : List Char) (line : Nat) : Option Token × List Char :=
  if ch = '(' then (some (make_token .LEFT_PAREN "(" line), chars)
  else if ch = ')' then (some (make_token .RIGHT_PAREN ")" line), chars)
  else if ch = '\x7b' then (some (make_token .LEFT_BRACE "\x7b" line), chars)
  else if ch = '\x7d' then (some (make_token .RIGHT_BRACE "\x7d" line), chars)
  else if ch = '*' then (some (make_token .STAR "*" line), chars)
  else if ch = '.' then (some (make_token .DOT "." line), chars)
  else if ch = ',' then (some (make_token .COMMA "," line), chars)
  else if ch = '+' then (some (make_token .PLUS "+" line), chars)
  else if ch = '-' then (some (make_token .MINUS "-" line), chars)
  else if ch = ';' then (some (make_token .SEMICOLON ";" line), chars)
  else if ch = '=' then match_next chars '=' '=' .EQUAL_EQUAL .EQUAL line
  else if ch = '!' then match_next chars '!' '=' .BANG_EQUAL .BANG line
  else if ch = '<' then match_next chars '<' '=' .LESS_EQUAL .LESS line
  else if ch = '>' then match_next chars '>' '=' .GREATER_EQUAL .GREATER line
  else if ch = '/' then
    match chars with
    | c :: rest =>
      if c = '/' then (none, skip_comment rest)
      else (some (make_token .SLASH "/" line), c :: rest)
    | [] => (some (make_token .SLASH "/" line), [])
  else if ch = '"' then scan_string_aux chars line []
  else if '0' ≤ ch ∧ ch ≤ '9' then
    let r := scan_num ch chars line
    (some r.1, r.2)
  else if ch.isWhitespace = true then (none, chars)
  else if ch = '_' ∨ ch.isAlphanum = true then
    let r := scan_identifier ch chars line
    (some r.1, r.2)
  else (none, chars)

/-- The scanning loop of `Lexer::lex` (lexer.rs:107-132): the main line
counter `self_line` is bumped only when the loop itself consumes a newline,
and `current_line` is then set to `self_line + 1`; after exhaustion exactly
one `EOF` token (lexeme `"EOF"`) is appended at the final `current_line`.
The fuel is an upper bound on the iterations; `lex` passes the input length
plus one, which never runs out because every iteration consumes at least one
character. -/
def lex_loop : Nat → List Char → Nat → Nat → List Token
  | 0, _, _, _ => []
  | _+1, [], _, current_line => [{ token_type := .Eof, lexeme := "EOF", line := current_line }]
  | fuel+1, c :: rest, self_line, current_line =>
    let sl := if c = '\n' then self_line + 1 else self_line
    let cl := if c = '\n' then self_line + 2 else current_line
    match scan_token c rest cl with
    | (some t, rest2) => t :: lex_loop fuel rest2 sl cl
    | (none, rest2) => lex_loop fuel rest2 sl cl

/-- The `Lexer::lex` entry point (lexer.rs:107-132): `self.line` starts at 0
and `current_line` at 1. -/
def lex (source : String) : List Token :=
  lex_loop (source.data.length + 1) source.data 0 1

/-- Number of newline characters in a character list. -/
def countNL (cs : List Char) : Nat :=
  cs.countP (fun c => decide (c = '\n'))

/-- Number of `EOF` tokens in a token list. -/
def eofCount (ts : List Token) : Nat :=
  ts.countP (fun t => decide (t.token_type = TokenType.Eof))

/-!
Concrete programs used by the claims, written as the ASTs the parser would
produce for them. -/

/-- Program of claim C1: `var a = 1; { var a = 2; print a; } print a;`. -/
def c1_program : List Stmt := [
  .Var "a" (.Literal (.number 1)),
  .Block [ .Var "a" (.Literal (.number 2)), .Print (.Variable "a" 1) ],
  .Print (.Variable "a" 1) ]

/-- Program of claim C2: a `return` nested in a block inside a `while` inside
a function body, followed by a second `return`:
`fun f() { var i = 0; while (i < 1) { i = i + 1; return 9; } return 7; } print f();`. -/
def c2_program : List Stmt := [
  .Function "f" [] [
    .Var "i" (.Literal (.number 0)),
    .While (.Binary (.Variable "i" 1) .LESS 1 (.Literal (.number 1)))
      (.Block [
        .Expression (.Assign "i" 1 (.Binary (.Variable "i" 1) .PLUS 1 (.Literal (.number 1)))),
        .Return (.Literal (.number 9)) ]),
    .Return (.Literal (.number 7)) ],
  .Print (.Call (.Variable "f" 2) 2 []) ]

/-- Program of claim C3: `var x = 1; fun f() { print x; } x = 2; f();`. -/
def c3_program : List Stmt := [
  .Var "x" (.Literal (.number 1)),
  .Function "f" [] [ .Print (.Variable "x" 1) ],
  .Expression (.Assign "x" 1 (.Literal (.number 2))),
  .Expression (.Call (.Variable "f" 1) 1 []) ]

/-- Program of claim C4: `var i = 0; while (i < 1) i = i + 1;` — the loop
body is an expression statement directly, not wrapped in a block. -/
def c4_program : List Stmt := [
  .Var "i" (.Literal (.number 0)),
  .While (.Binary (.Variable "i" 1) .LESS 1 (.Literal (.number 1)))
    (.Expression (.Assign "i" 1 (.Binary (.Variable "i" 1) .PLUS 1 (.Literal (.number 1))))) ]

/-- State for claim C5's counterexample: a global frame with `x = 0`. -/
def c5_state : St :=
  { heap := [{ enclosing := none, values := [("x", Value.number 0)] }], env := 0, output := [] }

/-- Call expression for claim C5's counterexample: `1(x = 5)` with the
closing paren on line 7 — the callee is a number, the single argument is an
assignment whose side effect is observable. -/
def c5_call : Expr :=
  .Call (.Literal (.number 1)) 7 [ .Assign "x" 7 (.Literal (.number 5)) ]

/-- Program of claim C7: `fun f() { return; } f();`. -/
def c7_program : List Stmt := [
  .Function "f" [] [ .Return .Null ],
  .Expression (.Call (.Variable "f" 1) 1 []) ]

/-- Environment chain for claim C10's witness: an inner frame binding `a`
over a root frame binding `x`. -/
def c10_env : Environment :=
  .child [("a", Value.number 1)] (.root [("x", Value.number 0)])

/-!
Theorems.  Each claim of the review has exactly one claim theorem below
(`c1_...` through `c10_...`), preceded by helper lemmas where needed; the
remaining theorems are the supporting lemma stack for the scanner proofs.
-/

theorem lookupA_map_replace (l : List (String × Value)) (k : String) (v : Value)
    (h : containsK l k = true) :
    lookupA (l.map (fun p => if p.1 = k then (k, v) else p)) k = some v := by
  induction l with
  | nil => simp [containsK, lookupA] at h
  | cons p rest ih =>
    by_cases hp : p.1 = k
    · simp [lookupA, hp]
    · have h2 : containsK rest k = true := by
        simpa [containsK, lookupA, hp] using h
      simp [lookupA, hp, ih h2]

theorem lookupA_map_replace_other (l : List (String × Value)) (k : String) (v : Value)
    (k' : String) (h : k' ≠ k) :
    lookupA (l.map (fun p => if p.1 = k then (k, v) else p)) k' = lookupA l k' := by
  induction l with
  | nil => simp
  | cons p rest ih =>
    by_cases hp : p.1 = k
    · have : k ≠ k' := fun he => h he.symm
      simp [lookupA, hp, this, ih]
    · simp [lookupA, hp, ih]

theorem lookupA_append_other (l : List (String × Value)) (k : String) (v : Value)
    (k' : String) (h : k' ≠ k) :
    lookupA (l ++ [(k, v)]) k' = lookupA l k' := by
  induction l with
  | nil =>
    have : ¬ k = k' := fun he => h he.symm
    simp [lookupA, this]
  | cons p rest ih => by_cases hp : p.1 = k' <;> simp [lookupA, hp, ih]

theorem lookupA_hmInsert_self (l : List (String × Value)) (k : String) (v : Value)
    (h : containsK l k = true) :
    lookupA (hmInsert l k v) k = some v := by
  simp [hmInsert, h, lookupA_map_replace l k v h]

theorem lookupA_hmInsert_other (l : List (String × Value)) (k : String) (v : Value)
    (k' : String) (h : k' ≠ k) :
    lookupA (hmInsert l k v) k' = lookupA l k' := by
  by_cases hc : containsK l k
  · simp [hmInsert, hc, lookupA_map_replace_other l k v k' h]
  · simp [hmInsert, hc, lookupA_append_other l k v k' h]

/-- Claim C10: `Environment.assign` mutates exactly one binding, the entry for
the assigned name in the nearest enclosing environment that already defines
it (every other binding at every depth is unchanged), and when no environment
in the chain defines the name it returns the `Undefined variable` error with
the whole chain unchanged. -/
theorem c10_assign_mutates_nearest_only (e : Environment) (name : String) (line : Nat) (v : Value) :
    (Environment.chainContains e name = true →
       (Environment.assign e name line v).1 = none
       ∧ Environment.frameLookup (Environment.assign e name line v).2
           (Environment.nearestDepth e name) name = some v
       ∧ ∀ i k, ¬ (i = Environment.nearestDepth e name ∧ k = name) →
           Environment.frameLookup (Environment.assign e name line v).2 i k
             = Environment.frameLookup e i k)
    ∧ (Environment.chainContains e name = false →
       (Environment.assign e name line v).1 = some ("Undefined variable '" ++ name ++ "'.", line)
       ∧ (Environment.assign e name line v).2 = e) := by
  induction e with
  | root values =>
    constructor
    · intro h
      have hc : containsK values name = true := by simpa [Environment.chainContains] using h
      refine ⟨by simp [Environment.assign, hc], ?_, ?_⟩
      · simp [Environment.assign, hc, Environment.nearestDepth, Environment.frameLookup,
          lookupA_hmInsert_self values name v hc]
      · intro i k hik
        match i with
        | 0 =>
          have hk : k ≠ name := fun he => hik ⟨rfl, he⟩
          simp [Environment.assign, hc, Environment.frameLookup,
            lookupA_hmInsert_other values name v k hk]
        | i+1 => simp [Environment.assign, hc, Environment.frameLookup]
    · intro h
      have hc : containsK values name = false := by simpa [Environment.chainContains] using h
      exact ⟨by simp [Environment.assign, hc], by simp [Environment.assign, hc]⟩
  | child values enclosing ih =>
    cases hc : containsK values name with
    | true =>
      constructor
      · intro _
        refine ⟨by simp [Environment.assign, hc], ?_, ?_⟩
        · simp [Environment.assign, hc, Environment.nearestDepth, Environment.frameLookup,
            lookupA_hmInsert_self values name v hc]
        · intro i k hik
          match i with
          | 0 =>
            have hnd : Environment.nearestDepth (.child values enclosing) name = 0 := by
              simp [Environment.nearestDepth, hc]
            have hk : k ≠ name := fun he => hik (by rw [hnd]; exact ⟨rfl, he⟩)
            simp [Environment.assign, hc, Environment.frameLookup,
              lookupA_hmInsert_other values name v k hk]
          | i+1 => simp [Environment.assign, hc, Environment.frameLookup]
      · intro h
        simp [Environment.chainContains, hc] at h
    | false =>
      constructor
      · intro h
        have hce : Environment.chainContains enclosing name = true := by
          simpa [Environment.chainContains, hc] using h
        obtain ⟨h1, h2, h3⟩ := ih.1 hce
        refine ⟨by simp [Environment.assign, hc, h1], ?_, ?_⟩
        · simp [Environment.assign, hc, Environment.nearestDepth, Environment.frameLookup, h2]
        · intro i k hik
          match i with
          | 0 => simp [Environment.assign, hc, Environment.frameLookup]
          | i+1 =>
            have hik2 : ¬ (i = Environment.nearestDepth enclosing name ∧ k = name) := by
              intro ⟨ha, hb⟩
              exact hik ⟨by simp [Environment.nearestDepth, hc, ha], hb⟩
            simp [Environment.assign, hc, Environment.frameLookup, h3 i k hik2]
      · intro h
        have hce : Environment.chainContains enclosing name = false := by
          simpa [Environment.chainContains, hc] using h
        obtain ⟨h1, h2⟩ := ih.2 hce
        exact ⟨by simp [Environment.assign, hc, h1], by simp [Environment.assign, hc, h2]⟩

/-- Claim C1 (refuted; code bug): `execute_block` points `environment` at a
fresh child but never restores the previous reference on any exit path, so
the program `var a = 1; (block: var a = 2; print a) print a;` prints 2 and
then 2 again, not 2 then 1 as the claim and the spec's scenario table
require. -/
theorem c1_block_environment_not_restored :
    Res.outOf (run_program 40 c1_program) = some ["2", "2"]
    ∧ Res.outOf (run_program 40 c1_program) ≠ some ["2", "1"] := by
  constructor
  · decide
  · decide

/-- Claim C2 (refuted; code bug): `visit_while_stmt` drops the result of
executing the loop body, so a `return` inside a `while` body does not unwind
to the call frame; in the C2 program the `return 9` inside the loop is
discarded and the function returns 7 via the statement after the loop. -/
theorem c2_return_swallowed_by_while :
    Res.outOf (run_program 60 c2_program) = some ["7"]
    ∧ Res.outOf (run_program 60 c2_program) ≠ some ["9"] := by
  constructor
  · decide
  · decide

/-- Claim C3: a function declaration captures the defining environment by
reference, so an assignment to `x` made after `fun f() (print x)` is defined
but before `f()` is called is visible inside the call, which prints 2.
Relies on the spec-modelled closure argument of `visit_function_stmt`. -/
theorem c3_closure_sees_later_binding :
    Res.outOf (run_program 40 c3_program) = some ["2"] := by decide

/-- Claim C4 (refuted; code bug): `visit_while_stmt` executes the loop body
with the expression-print flag hard-coded to `true`, so under `run` an
expression statement that is the direct body of a `while` loop writes its
value to stdout: `var i = 0; while (i < 1) i = i + 1;` prints 1. -/
theorem c4_while_body_expression_prints :
    Res.outOf (run_program 40 c4_program) = some ["1"]
    ∧ Res.outOf (run_program 40 c4_program) ≠ some [] := by
  constructor
  · decide
  · decide

/-- Claim C5 (amended): in a call whose callee evaluates to a non-callable
value, the error `Can only call functions and classes.` is raised at the
closing-paren line, but only after all argument expressions have been
evaluated, so the result state is the post-arguments state `st2` and the
arguments' side effects do occur. -/
theorem c5_error_after_arguments (n : Nat) (st st1 st2 : St) (callee : Expr)
    (paren_line : Nat) (arguments : List Expr) (v : Value) (vs : List Value)
    (h1 : evaluate n st callee = .ok v st1)
    (h2 : eval_args n st1 arguments = .ok vs st2)
    (h3 : Value.is_callable v = false) :
    visit_call_expr (n+1) st callee paren_line arguments
      = .rerr "Can only call functions and classes." paren_line st2 := by
  simp only [visit_call_expr, h1, Res.bind, h2]
  cases v with
  | fn f => simp [Value.is_callable] at h3
  | number x => rfl
  | string s => rfl
  | boolean b => rfl
  | nil => rfl

/-- Witness for C5's amended theorem at a concrete non-callable callee. -/
theorem c5_witness :
    visit_call_expr 3 init_st (.Literal (.number 1)) 4 [] =
      .rerr "Can only call functions and classes." 4 init_st :=
  c5_error_after_arguments 2 init_st init_st init_st (.Literal (.number 1)) 4 []
    (.number 1) [] rfl rfl rfl

/-- Counterexample to Claim C5 as stated: evaluating `1(x = 5)` in a state
with `x = 0` raises the error at the paren line, yet afterwards `x` reads 5,
so the argument's side effect did occur, contradicting the claim that the
error fires before the arguments are evaluated. -/
theorem c5_counterexample :
    Res.errInfo (evaluate 9 c5_state c5_call) = some ("Can only call functions and classes.", 7)
    ∧ (Res.stateOf (evaluate 9 c5_state c5_call)).map (fun s => St.readNum s "x") = some (some 5)
    ∧ (Res.stateOf (evaluate 9 c5_state c5_call)).map (fun s => St.readNum s "x") ≠ some (some 0) := by
  refine ⟨rfl, rfl, ?_⟩
  decide

/-- Claim C6: once the callee has evaluated to a callable `f` and the
arguments to values, the error `Expected N arguments but got M.` (N the
arity, M the argument count) is raised at the closing-paren line exactly
when N differs from M, and when they agree the callable is invoked. -/
theorem c6_arity_check (n : Nat) (st st1 st2 : St) (callee : Expr)
    (paren_line : Nat) (arguments : List Expr) (f : Callable) (vs : List Value)
    (h1 : evaluate n st callee = .ok (.fn f) st1)
    (h2 : eval_args n st1 arguments = .ok vs st2) :
    (Callable.arity f ≠ arguments.length →
       visit_call_expr (n+1) st callee paren_line arguments
         = .rerr (arity_error_message (Callable.arity f) arguments.length) paren_line st2)
    ∧ (Callable.arity f = arguments.length →
       visit_call_expr (n+1) st callee paren_line arguments
         = call_callable n st2 f vs) := by
  constructor
  · intro hne
    have hcond : arguments.length ≠ Callable.arity f := fun he => hne he.symm
    simp only [visit_call_expr, h1, Res.bind, h2, if_pos hcond]
  · intro heq
    have hcond : ¬ (arguments.length ≠ Callable.arity f) := fun hne => hne heq.symm
    simp only [visit_call_expr, h1, Res.bind, h2, if_neg hcond]

/-- Witness for C6 at a concrete call of the native `clock` (arity 0) with
one argument. -/
theorem c6_witness :
    visit_call_expr 3 init_st (.Variable "clock" 1) 2 [.Literal (.number 0)]
      = .rerr (arity_error_message 0 1) 2 init_st
    ∧ arity_error_message 0 1 = "Expected 0 arguments but got 1." := by
  have h := c6_arity_check 2 init_st init_st init_st (.Variable "clock" 1) 2
    [.Literal (.number 0)] .clock [.number 0] rfl rfl
  exact ⟨h.1 (by decide), rfl⟩

/-- Claim C7 (refuted; code bug): a bare `return;` carries `Expr.Null`, and
`visit_return_stmt` reaches `value.unwrap()` with `None`, a panic - the call
does not return `Nil`.  The first conjunct runs the whole C7 program, the
second evaluates the cited `visit_return_stmt` arm directly. -/
theorem c7_bare_return_panics :
    Res.isPanic (run_program 40 c7_program) = true
    ∧ visit_return_stmt 1 init_st Expr.Null = .panicked init_st := by
  constructor
  · decide
  · rfl

/-- Witness for C10 at a two-frame chain (assignment found in the root) and
at an empty root (assignment fails). -/
theorem c10_witness :
    (Environment.assign c10_env "x" 7 (Value.number 5)).1 = none
    ∧ Environment.frameLookup (Environment.assign c10_env "x" 7 (Value.number 5)).2
        (Environment.nearestDepth c10_env "x") "x" = some (Value.number 5)
    ∧ Environment.frameLookup (Environment.assign c10_env "x" 7 (Value.number 5)).2 0 "a"
        = Environment.frameLookup c10_env 0 "a"
    ∧ (Environment.assign (Environment.root []) "y" 3 (Value.number 1)).1
        = some ("Undefined variable 'y'.", 3) := by
  have h1 := (c10_assign_mutates_nearest_only c10_env "x" 7 (Value.number 5)).1 (by decide)
  have h2 := (c10_assign_mutates_nearest_only (Environment.root []) "y" 3 (Value.number 1)).2 (by decide)
  exact ⟨h1.1, h1.2.1, h1.2.2 0 "a" (by decide), h2.1⟩

/-- Counterexample to Claim C8 as stated: lexing `123.` yields a single
NUMBER token whose original text includes the trailing dot (normalized value
`123.0`) followed by EOF, and no DOT token is emitted anywhere in the
stream. -/
theorem c8_counterexample :
    lex "123." = [{ token_type := .NUMBER "123." "123.0", lexeme := "\"123.0\"", line := 1 },
                  { token_type := .Eof, lexeme := "EOF", line := 1 }]
    ∧ (lex "123.").countP (fun t => decide (t.token_type = TokenType.DOT)) = 0 := by
  exact ⟨by decide, by decide⟩

/-- Claim C8 (amended): `scan_num` always consumes a dot that follows the
digits, even when no digit comes after it; the NUMBER token's original text
keeps the trailing dot, the normalized value appends a zero, and no DOT
token is emitted - here on the input `7.)`. -/
theorem c8_trailing_dot_consumed :
    lex "7.)" = [{ token_type := .NUMBER "7." "7.0", lexeme := "\"7.0\"", line := 1 },
                 { token_type := .RIGHT_PAREN, lexeme := ")", line := 1 },
                 { token_type := .Eof, lexeme := "EOF", line := 1 }] := by decide

theorem skip_comment_consumed (cs : List Char) :
    ∃ pre, cs = pre ++ skip_comment cs ∧ ∀ x ∈ pre, x ≠ '\n' := by
  induction cs with
  | nil => exact ⟨[], rfl, fun x hx => absurd hx (List.not_mem_nil x)⟩
  | cons c rest ih =>
    by_cases h : c = '\n'
    · refine ⟨[], ?_, fun x hx => absurd hx (List.not_mem_nil x)⟩
      simp only [skip_comment]
      rw [if_pos h]
      rfl
    · obtain ⟨pre, hp, hnl⟩ := ih
      refine ⟨c :: pre, ?_, fun x hx => ?_⟩
      · simp only [skip_comment]
        rw [if_neg h, List.cons_append, ← hp]
      · rcases List.mem_cons.mp hx with rfl | hx
        · exact h
        · exact hnl x hx

theorem match_next_consumed (chars : List Char) (cur exp : Char) (dt st2 : TokenType) (ln : Nat) :
    ∃ pre, chars = pre ++ (match_next chars cur exp dt st2 ln).2 ∧ ∀ x ∈ pre, x = exp := by
  cases chars with
  | nil => exact ⟨[], rfl, fun x hx => absurd hx (List.not_mem_nil x)⟩
  | cons c rest =>
    by_cases h : c = exp
    · refine ⟨[c], ?_, fun x hx => ?_⟩
      · simp only [match_next]
        rw [if_pos h]
        rfl
      · rcases List.mem_cons.mp hx with rfl | hx
        · exact h
        · exact absurd hx (List.not_mem_nil x)
    · refine ⟨[], ?_, fun x hx => absurd hx (List.not_mem_nil x)⟩
      simp only [match_next]
      rw [if_neg h]
      rfl

theorem scan_string_aux_consumed (cs : List Char) : ∀ ln acc,
    ∃ pre, cs = pre ++ (scan_string_aux cs ln acc).2 := by
  induction cs with
  | nil => intro ln acc; exact ⟨[], rfl⟩
  | cons c rest ih =>
    intro ln acc
    by_cases h1 : c = '"'
    · refine ⟨[c], ?_⟩
      simp only [scan_string_aux]
      rw [if_pos h1]
      rfl
    · by_cases h2 : c = '\n'
      · obtain ⟨pre, hp⟩ := ih (ln + 1) (acc ++ [c])
        refine ⟨c :: pre, ?_⟩
        simp only [scan_string_aux]
        rw [if_neg h1, if_pos h2, List.cons_append, ← hp]
      · obtain ⟨pre, hp⟩ := ih ln (acc ++ [c])
        refine ⟨c :: pre, ?_⟩
        simp only [scan_string_aux]
        rw [if_neg h1, if_neg h2, List.cons_append, ← hp]

theorem scan_num_aux_consumed (cs : List Char) : ∀ v o z d,
    ∃ pre, cs = pre ++ (scan_num_aux cs v o z d).2.2.2 ∧ ∀ x ∈ pre, x ≠ '\n' := by
  induction cs with
  | nil => intro v o z d; exact ⟨[], rfl, fun x hx => absurd hx (List.not_mem_nil x)⟩
  | cons c rest ih =>
    intro v o z d
    by_cases h1 : c = '0'
    · by_cases hd : d = true
      · obtain ⟨pre, hp, hnl⟩ := ih v (o ++ [c]) (z ++ ['0']) d
        refine ⟨c :: pre, ?_, fun x hx => ?_⟩
        · simp only [scan_num_aux]
          rw [if_pos h1, if_pos hd, List.cons_append, ← hp]
        · rcases List.mem_cons.mp hx with rfl | hx
          · rw [h1]; decide
          · exact hnl x hx
      · obtain ⟨pre, hp, hnl⟩ := ih (v ++ [c]) (o ++ [c]) z d
        refine ⟨c :: pre, ?_, fun x hx => ?_⟩
        · simp only [scan_num_aux]
          rw [if_pos h1, if_neg hd, List.cons_append, ← hp]
        · rcases List.mem_cons.mp hx with rfl | hx
          · rw [h1]; decide
          · exact hnl x hx
    · by_cases h2 : '1' ≤ c ∧ c ≤ '9'
      · obtain ⟨pre, hp, hnl⟩ := ih ((if z.isEmpty then v else v ++ z) ++ [c]) (o ++ [c]) [] d
        refine ⟨c :: pre, ?_, fun x hx => ?_⟩
        · simp only [scan_num_aux]
          rw [if_neg h1, if_pos h2, List.cons_append, ← hp]
        · rcases List.mem_cons.mp hx with rfl | hx
          · intro hc; rw [hc] at h2; exact absurd h2.1 (by decide)
          · exact hnl x hx
      · by_cases h3 : c = '.'
        · obtain ⟨pre, hp, hnl⟩ := ih (v ++ [c]) (o ++ [c]) z true
          refine ⟨c :: pre, ?_, fun x hx => ?_⟩
          · simp only [scan_num_aux]
            rw [if_neg h1, if_neg h2, if_pos h3, List.cons_append, ← hp]
          · rcases List.mem_cons.mp hx with rfl | hx
            · rw [h3]; decide
            · exact hnl x hx
        · refine ⟨[], ?_, fun x hx => absurd hx (List.not_mem_nil x)⟩
          simp only [scan_num_aux]
          rw [if_neg h1, if_neg h2, if_neg h3]
          rfl

theorem scan_identifier_aux_consumed (cs : List Char) : ∀ acc,
    ∃ pre, cs = pre ++ (scan_identifier_aux cs acc).2 ∧ ∀ x ∈ pre, x ≠ '\n' := by
  induction cs with
  | nil => intro acc; exact ⟨[], rfl, fun x hx => absurd hx (List.not_mem_nil x)⟩
  | cons c rest ih =>
    intro acc
    by_cases h : c.isAlphanum = true ∨ c = '_'
    · obtain ⟨pre, hp, hnl⟩ := ih (acc ++ [c])
      refine ⟨c :: pre, ?_, fun x hx => ?_⟩
      · simp only [scan_identifier_aux]
        rw [if_pos h, List.cons_append, ← hp]
      · rcases List.mem_cons.mp hx with rfl | hx
        · rcases h with h | h
          · intro hc; rw [hc] at h; exact absurd h (by decide)
          · rw [h]; decide
        · exact hnl x hx
    · refine ⟨[], ?_, fun x hx => absurd hx (List.not_mem_nil x)⟩
      simp only [scan_identifier_aux]
      rw [if_neg h]
      rfl

theorem scan_num_consumed (num : Char) (cs : List Char) (ln : Nat) :
    ∃ pre, cs = pre ++ (scan_num num cs ln).2 ∧ ∀ x ∈ pre, x ≠ '\n' :=
  scan_num_aux_consumed cs [num] [num] [] false

theorem scan_identifier_consumed (id0 : Char) (cs : List Char) (ln : Nat) :
    ∃ pre, cs = pre ++ (scan_identifier id0 cs ln).2 ∧ ∀ x ∈ pre, x ≠ '\n' := by
  unfold scan_identifier
  simp only []
  rcases hk : keywords (String.mk (scan_identifier_aux cs [id0]).1) with _ | res <;>
    exact scan_identifier_aux_consumed cs [id0]

theorem scan_token_consumed (ch : Char) (chars : List Char) (line : Nat) :
    ∃ pre, chars = pre ++ (scan_token ch chars line).2
      ∧ (ch ≠ '"' → ∀ x ∈ pre, x ≠ '\n') := by
  simp only [scan_token]
  by_cases h1 : ch = '('
  · rw [if_pos h1]
    exact ⟨[], rfl, fun _ x hx => absurd hx (List.not_mem_nil x)⟩
  rw [if_neg h1]
  by_cases h2 : ch = ')'
  · rw [if_pos h2]
    exact ⟨[], rfl, fun _ x hx => absurd hx (List.not_mem_nil x)⟩
  rw [if_neg h2]
  by_cases h3 : ch = '\x7b'
  · rw [if_pos h3]
    exact ⟨[], rfl, fun _ x hx => absurd hx (List.not_mem_nil x)⟩
  rw [if_neg h3]
  by_cases h4 : ch = '\x7d'
  · rw [if_pos h4]
    exact ⟨[], rfl, fun _ x hx => absurd hx (List.not_mem_nil x)⟩
  rw [if_neg h4]
  by_cases h5 : ch = '*'
  · rw [if_pos h5]
    exact ⟨[], rfl, fun _ x hx => absurd hx (List.not_mem_nil x)⟩
  rw [if_neg h5]
  by_cases h6 : ch = '.'
  · rw [if_pos h6]
    exact ⟨[], rfl, fun _ x hx => absurd hx (List.not_mem_nil x)⟩
  rw [if_neg h6]
  by_cases h7 : ch = ','
  · rw [if_pos h7]
    exact ⟨[], rfl, fun _ x hx => absurd hx (List.not_mem_nil x)⟩
  rw [if_neg h7]
  by_cases h8 : ch = '+'
  · rw [if_pos h8]
    exact ⟨[], rfl, fun _ x hx => absurd hx (List.not_mem_nil x)⟩
  rw [if_neg h8]
  by_cases h9 : ch = '-'
  · rw [if_pos h9]
    exact ⟨[], rfl, fun _ x hx => absurd hx (List.not_mem_nil x)⟩
  rw [if_neg h9]
  by_cases h10 : ch = ';'
  · rw [if_pos h10]
    exact ⟨[], rfl, fun _ x hx => absurd hx (List.not_mem_nil x)⟩
  rw [if_neg h10]
  by_cases h11 : ch = '='
  · rw [if_pos h11]
    obtain ⟨pre, hp, hall⟩ := match_next_consumed chars _ '=' _ _ line
    exact ⟨pre, hp, fun _ x hx => by rw [hall x hx]; decide⟩
  rw [if_neg h11]
  by_cases h12 : ch = '!'
  · rw [if_pos h12]
    obtain ⟨pre, hp, hall⟩ := match_next_consumed chars _ '=' _ _ line
    exact ⟨pre, hp, fun _ x hx => by rw [hall x hx]; decide⟩
  rw [if_neg h12]
  by_cases h13 : ch = '<'
  · rw [if_pos h13]
    obtain ⟨pre, hp, hall⟩ := match_next_consumed chars _ '=' _ _ line
    exact ⟨pre, hp, fun _ x hx => by rw [hall x hx]; decide⟩
  rw [if_neg h13]
  by_cases h14 : ch = '>'
  · rw [if_pos h14]
    obtain ⟨pre, hp, hall⟩ := match_next_consumed chars _ '=' _ _ line
    exact ⟨pre, hp, fun _ x hx => by rw [hall x hx]; decide⟩
  rw [if_neg h14]
  by_cases h15 : ch = '/'
  · rw [if_pos h15]
    cases chars with
    | nil => exact ⟨[], rfl, fun _ x hx => absurd hx (List.not_mem_nil x)⟩
    | cons c rest =>
      by_cases hc : c = '/'
      · show ∃ pre, c :: rest = pre ++ (if c = '/' then ((none : Option Token), skip_comment rest) else (some (make_token .SLASH "/" line), c :: rest)).2 ∧ _
        rw [if_pos hc]
        obtain ⟨pre, hp, hnl⟩ := skip_comment_consumed rest
        refine ⟨c :: pre, by rw [List.cons_append, ← hp], fun _ x hx => ?_⟩
        rcases List.mem_cons.mp hx with rfl | hx
        · rw [hc]; decide
        · exact hnl x hx
      · show ∃ pre, c :: rest = pre ++ (if c = '/' then ((none : Option Token), skip_comment rest) else (some (make_token .SLASH "/" line), c :: rest)).2 ∧ _
        rw [if_neg hc]
        exact ⟨[], rfl, fun _ x hx => absurd hx (List.not_mem_nil x)⟩
  rw [if_neg h15]
  by_cases h16 : ch = '"'
  · rw [if_pos h16]
    obtain ⟨pre, hp⟩ := scan_string_aux_consumed chars line []
    exact ⟨pre, hp, fun hne => absurd h16 hne⟩
  rw [if_neg h16]
  by_cases h17 : '0' ≤ ch ∧ ch ≤ '9'
  · rw [if_pos h17]
    obtain ⟨pre, hp, hnl⟩ := scan_num_consumed ch chars line
    exact ⟨pre, hp, fun _ => hnl⟩
  rw [if_neg h17]
  by_cases h18 : ch.isWhitespace = true
  · rw [if_pos h18]
    exact ⟨[], rfl, fun _ x hx => absurd hx (List.not_mem_nil x)⟩
  rw [if_neg h18]
  by_cases h19 : ch = '_' ∨ ch.isAlphanum = true
  · rw [if_pos h19]
    obtain ⟨pre, hp, hnl⟩ := scan_identifier_consumed ch chars line
    exact ⟨pre, hp, fun _ => hnl⟩
  rw [if_neg h19]
  exact ⟨[], rfl, fun _ x hx => absurd hx (List.not_mem_nil x)⟩

theorem scan_token_length (ch : Char) (chars : List Char) (line : Nat) :
    (scan_token ch chars line).2.length ≤ chars.length := by
  obtain ⟨pre, hp, -⟩ := scan_token_consumed ch chars line
  conv_rhs => rw [hp]
  simp

theorem scan_token_subset (ch : Char) (chars : List Char) (line : Nat) (x : Char) :
    x ∈ (scan_token ch chars line).2 → x ∈ chars := by
  obtain ⟨pre, hp, -⟩ := scan_token_consumed ch chars line
  intro hx
  rw [hp]
  exact List.mem_append_right pre hx

theorem countNL_append (l1 l2 : List Char) : countNL (l1 ++ l2) = countNL l1 + countNL l2 := by
  simp [countNL, List.countP_append]

theorem scan_token_countNL (ch : Char) (chars : List Char) (line : Nat) (h : ch ≠ '"') :
    countNL (scan_token ch chars line).2 = countNL chars := by
  obtain ⟨pre, hp, hnl⟩ := scan_token_consumed ch chars line
  conv_rhs => rw [hp]
  rw [countNL_append]
  have : countNL pre = 0 := by
    apply List.countP_eq_zero.mpr
    intro x hx
    simpa using hnl h x hx
  rw [this]
  omega

theorem keywords_not_eof (k : String) (t : TokenType) (h : keywords k = some t) :
    t ≠ TokenType.Eof := by
  unfold keywords at h
  by_cases h1 : k = "and"
  · rw [if_pos h1] at h
    injection h with h0
    rw [← h0]
    decide
  rw [if_neg h1] at h
  by_cases h2 : k = "class"
  · rw [if_pos h2] at h
    injection h with h0
    rw [← h0]
    decide
  rw [if_neg h2] at h
  by_cases h3 : k = "else"
  · rw [if_pos h3] at h
    injection h with h0
    rw [← h0]
    decide
  rw [if_neg h3] at h
  by_cases h4 : k = "false"
  · rw [if_pos h4] at h
    injection h with h0
    rw [← h0]
    decide
  rw [if_neg h4] at h
  by_cases h5 : k = "for"
  · rw [if_pos h5] at h
    injection h with h0
    rw [← h0]
    decide
  rw [if_neg h5] at h
  by_cases h6 : k = "fun"
  · rw [if_pos h6] at h
    injection h with h0
    rw [← h0]
    decide
  rw [if_neg h6] at h
  by_cases h7 : k = "if"
  · rw [if_pos h7] at h
    injection h with h0
    rw [← h0]
    decide
  rw [if_neg h7] at h
  by_cases h8 : k = "nil"
  · rw [if_pos h8] at h
    injection h with h0
    rw [← h0]
    decide
  rw [if_neg h8] at h
  by_cases h9 : k = "or"
  · rw [if_pos h9] at h
    injection h with h0
    rw [← h0]
    decide
  rw [if_neg h9] at h
  by_cases h10 : k = "print"
  · rw [if_pos h10] at h
    injection h with h0
    rw [← h0]
    decide
  rw [if_neg h10] at h
  by_cases h11 : k = "return"
  · rw [if_pos h11] at h
    injection h with h0
    rw [← h0]
    decide
  rw [if_neg h11] at h
  by_cases h12 : k = "super"
  · rw [if_pos h12] at h
    injection h with h0
    rw [← h0]
    decide
  rw [if_neg h12] at h
  by_cases h13 : k = "this"
  · rw [if_pos h13] at h
    injection h with h0
    rw [← h0]
    decide
  rw [if_neg h13] at h
  by_cases h14 : k = "true"
  · rw [if_pos h14] at h
    injection h with h0
    rw [← h0]
    decide
  rw [if_neg h14] at h
  by_cases h15 : k = "var"
  · rw [if_pos h15] at h
    injection h with h0
    rw [← h0]
    decide
  rw [if_neg h15] at h
  by_cases h16 : k = "while"
  · rw [if_pos h16] at h
    injection h with h0
    rw [← h0]
    decide
  rw [if_neg h16] at h
  exact absurd h (by simp)

theorem match_next_not_eof (chars : List Char) (cur exp : Char) (dt st2 : TokenType) (ln : Nat)
    (hd : dt ≠ TokenType.Eof) (hs : st2 ≠ TokenType.Eof) :
    ∀ t, (match_next chars cur exp dt st2 ln).1 = some t → t.token_type ≠ TokenType.Eof := by
  cases chars with
  | nil =>
    intro t ht
    have hi : some (make_token st2 (String.mk [cur]) ln) = some t := ht
    injection hi with h0
    rw [← h0]
    exact hs
  | cons c rest =>
    by_cases hc : c = exp
    · simp only [match_next]
      rw [if_pos hc]
      intro t ht
      have hi : some (make_token dt (String.mk [cur, exp]) ln) = some t := ht
      injection hi with h0
      rw [← h0]
      exact hd
    · simp only [match_next]
      rw [if_neg hc]
      intro t ht
      have hi : some (make_token st2 (String.mk [cur]) ln) = some t := ht
      injection hi with h0
      rw [← h0]
      exact hs

theorem scan_string_aux_not_eof (cs : List Char) : ∀ ln acc t,
    (scan_string_aux cs ln acc).1 = some t → t.token_type ≠ TokenType.Eof := by
  induction cs with
  | nil => intro ln acc t ht; exact absurd ht (by simp [scan_string_aux])
  | cons c rest ih =>
    intro ln acc t
    by_cases h1 : c = '"'
    · simp only [scan_string_aux]
      rw [if_pos h1]
      intro ht
      have hi : some (Token.mk (TokenType.STRING (String.mk acc)) ("\"" ++ String.mk acc ++ "\"") ln) = some t := ht
      injection hi with h0
      rw [← h0]
      simp
    · by_cases h2 : c = '\n'
      · simp only [scan_string_aux]
        rw [if_neg h1, if_pos h2]
        exact ih (ln + 1) (acc ++ [c]) t
      · simp only [scan_string_aux]
        rw [if_neg h1, if_neg h2]
        exact ih ln (acc ++ [c]) t

theorem scan_num_not_eof (num : Char) (cs : List Char) (ln : Nat) :
    ((scan_num num cs ln).1).token_type ≠ TokenType.Eof := by
  simp [scan_num]

theorem scan_identifier_not_eof (id0 : Char) (cs : List Char) (ln : Nat) :
    ((scan_identifier id0 cs ln).1).token_type ≠ TokenType.Eof := by
  unfold scan_identifier
  simp only []
  rcases hk : keywords (String.mk (scan_identifier_aux cs [id0]).1) with _ | res
  · simp
  · exact keywords_not_eof _ res hk

theorem scan_token_not_eof (ch : Char) (chars : List Char) (line : Nat) :
    ∀ t, (scan_token ch chars line).1 = some t → t.token_type ≠ TokenType.Eof := by
  simp only [scan_token]
  by_cases h1 : ch = '('
  · rw [if_pos h1]
    intro t ht
    have hi : some (make_token TokenType.LEFT_PAREN "(" line) = some t := ht
    injection hi with h0
    rw [← h0]
    simp [make_token]
  rw [if_neg h1]
  by_cases h2 : ch = ')'
  · rw [if_pos h2]
    intro t ht
    have hi : some (make_token TokenType.RIGHT_PAREN ")" line) = some t := ht
    injection hi with h0
    rw [← h0]
    simp [make_token]
  rw [if_neg h2]
  by_cases h3 : ch = '\x7b'
  · rw [if_pos h3]
    intro t ht
    have hi : some (make_token TokenType.LEFT_BRACE "\x7b" line) = some t := ht
    injection hi with h0
    rw [← h0]
    simp [make_token]
  rw [if_neg h3]
  by_cases h4 : ch = '\x7d'
  · rw [if_pos h4]
    intro t ht
    have hi : some (make_token TokenType.RIGHT_BRACE "\x7d" line) = some t := ht
    injection hi with h0
    rw [← h0]
    simp [make_token]
  rw [if_neg h4]
  by_cases h5 : ch = '*'
  · rw [if_pos h5]
    intro t ht
    have hi : some (make_token TokenType.STAR "*" line) = some t := ht
    injection hi with h0
    rw [← h0]
    simp [make_token]
  rw [if_neg h5]
  by_cases h6 : ch = '.'
  · rw [if_pos h6]
    intro t ht
    have hi : some (make_token TokenType.DOT "." line) = some t := ht
    injection hi with h0
    rw [← h0]
    simp [make_token]
  rw [if_neg h6]
  by_cases h7 : ch = ','
  · rw [if_pos h7]
    intro t ht
    have hi : some (make_token TokenType.COMMA "," line) = some t := ht
    injection hi with h0
    rw [← h0]
    simp [make_token]
  rw [if_neg h7]
  by_cases h8 : ch = '+'
  · rw [if_pos h8]
    intro t ht
    have hi : some (make_token TokenType.PLUS "+" line) = some t := ht
    injection hi with h0
    rw [← h0]
    simp [make_token]
  rw [if_neg h8]
  by_cases h9 : ch = '-'
  · rw [if_pos h9]
    intro t ht
    have hi : some (make_token TokenType.MINUS "-" line) = some t := ht
    injection hi with h0
    rw [← h0]
    simp [make_token]
  rw [if_neg h9]
  by_cases h10 : ch = ';'
  · rw [if_pos h10]
    intro t ht
    have hi : some (make_token TokenType.SEMICOLON ";" line) = some t := ht
    injection hi with h0
    rw [← h0]
    simp [make_token]
  rw [if_neg h10]
  by_cases h11 : ch = '='
  · rw [if_pos h11]
    exact fun t ht => match_next_not_eof chars _ '=' _ _ line (by decide) (by decide) t ht
  rw [if_neg h11]
  by_cases h12 : ch = '!'
  · rw [if_pos h12]
    exact fun t ht => match_next_not_eof chars _ '=' _ _ line (by decide) (by decide) t ht
  rw [if_neg h12]
  by_cases h13 : ch = '<'
  · rw [if_pos h13]
    exact fun t ht => match_next_not_eof chars _ '=' _ _ line (by decide) (by decide) t ht
  rw [if_neg h13]
  by_cases h14 : ch = '>'
  · rw [if_pos h14]
    exact fun t ht => match_next_not_eof chars _ '=' _ _ line (by decide) (by decide) t ht
  rw [if_neg h14]
  by_cases h15 : ch = '/'
  · rw [if_pos h15]
    cases chars with
    | nil =>
      intro t ht
      have hi : some (make_token TokenType.SLASH "/" line) = some t := ht
      injection hi with h0
      rw [← h0]
      simp [make_token]
    | cons c rest =>
      show ∀ t, ((if c = '/' then ((none : Option Token), skip_comment rest) else (some (make_token .SLASH "/" line), c :: rest)).1 = some t) → _
      by_cases hc : c = '/'
      · rw [if_pos hc]
        intro t ht
        exact absurd ht (by simp)
      · rw [if_neg hc]
        intro t ht
        have hi : some (make_token TokenType.SLASH "/" line) = some t := ht
        injection hi with h0
        rw [← h0]
        simp [make_token]
  rw [if_neg h15]
  by_cases h16 : ch = '"'
  · rw [if_pos h16]
    exact fun t ht => scan_string_aux_not_eof chars line [] t ht
  rw [if_neg h16]
  by_cases h17 : '0' ≤ ch ∧ ch ≤ '9'
  · rw [if_pos h17]
    intro t ht
    have hi : some ((scan_num ch chars line).1) = some t := ht
    injection hi with h0
    rw [← h0]
    exact scan_num_not_eof ch chars line
  rw [if_neg h17]
  by_cases h18 : ch.isWhitespace = true
  · rw [if_pos h18]
    intro t ht
    exact absurd ht (by simp)
  rw [if_neg h18]
  by_cases h19 : ch = '_' ∨ ch.isAlphanum = true
  · rw [if_pos h19]
    intro t ht
    have hi : some ((scan_identifier ch chars line).1) = some t := ht
    injection hi with h0
    rw [← h0]
    exact scan_identifier_not_eof ch chars line
  rw [if_neg h19]
  intro t ht
  exact absurd ht (by simp)

theorem countNL_cons (c : Char) (cs : List Char) :
    countNL (c :: cs) = countNL cs + (if c = '\n' then 1 else 0) := by
  by_cases h : c = '\n' <;> simp [countNL, List.countP_cons, h]

theorem scan_token_newline (cs : List Char) (ln : Nat) :
    scan_token '\n' cs ln = (none, cs) := rfl

theorem lex_loop_structure : ∀ fuel cs sl cl, cs.length < fuel →
    ∃ ts ln, lex_loop fuel cs sl cl = ts ++ [{ token_type := .Eof, lexeme := "EOF", line := ln }]
      ∧ ∀ t ∈ ts, t.token_type ≠ TokenType.Eof := by
  intro fuel
  induction fuel with
  | zero => intro cs sl cl h; omega
  | succ fuel ih =>
    intro cs sl cl h
    cases cs with
    | nil => exact ⟨[], cl, rfl, fun t ht => absurd ht (List.not_mem_nil t)⟩
    | cons c rest =>
      simp only [lex_loop]
      rcases hs : scan_token c rest (if c = '\n' then sl + 2 else cl) with ⟨ot, rest2⟩
      have hfst : (scan_token c rest (if c = '\n' then sl + 2 else cl)).1 = ot := by rw [hs]
      have hlen : rest2.length < fuel := by
        have h1 := scan_token_length c rest (if c = '\n' then sl + 2 else cl)
        rw [hs] at h1
        have h1b : rest2.length ≤ rest.length := h1
        simp only [List.length_cons] at h
        omega
      obtain ⟨ts, ln, heq, hall⟩ :=
        ih rest2 (if c = '\n' then sl + 1 else sl) (if c = '\n' then sl + 2 else cl) hlen
      cases ot with
      | none => exact ⟨ts, ln, heq, hall⟩
      | some t =>
        refine ⟨t :: ts, ln, congrArg (fun l => t :: l) heq, fun u hu => ?_⟩
        rcases List.mem_cons.mp hu with rfl | hu
        · exact scan_token_not_eof c rest (if c = '\n' then sl + 2 else cl) u hfst
        · exact hall u hu

theorem lex_loop_line : ∀ fuel cs sl, cs.length < fuel → ('"' ∈ cs → False) →
    ∃ ts, lex_loop fuel cs sl (sl + 1)
      = ts ++ [{ token_type := .Eof, lexeme := "EOF", line := sl + 1 + countNL cs }] := by
  intro fuel
  induction fuel with
  | zero => intro cs sl h hq; omega
  | succ fuel ih =>
    intro cs sl h hq
    cases cs with
    | nil => exact ⟨[], by simp [lex_loop, countNL]⟩
    | cons c rest =>
      by_cases hc : c = '\n'
      · subst hc
        have hq2 : '"' ∈ rest → False := fun hm => hq (List.mem_cons_of_mem _ hm)
        have hlen : rest.length < fuel := by
          simp only [List.length_cons] at h
          omega
        obtain ⟨ts, heq⟩ := ih rest (sl + 1) hlen hq2
        have harith : sl + 1 + 1 + countNL rest = sl + 1 + countNL ('\n' :: rest) := by
          rw [countNL_cons]
          simp
          omega
        have heq2 : lex_loop fuel rest (sl + 1) (sl + 1 + 1)
            = ts ++ [{ token_type := .Eof, lexeme := "EOF",
                       line := sl + 1 + countNL ('\n' :: rest) }] := by
          rw [heq, harith]
        refine ⟨ts, ?_⟩
        simp only [lex_loop, if_true]
        rw [scan_token_newline]
        exact heq2
      · have hcq : c ≠ '"' := fun he => hq (he ▸ List.mem_cons_self c rest)
        simp only [lex_loop]
        have hSL : (if c = '\n' then sl + 1 else sl) = sl := if_neg hc
        have hCL : (if c = '\n' then sl + 2 else sl + 1) = sl + 1 := if_neg hc
        rw [hSL, hCL]
        rcases hs : scan_token c rest (sl + 1) with ⟨ot, rest2⟩
        have hlen : rest2.length < fuel := by
          have h1 := scan_token_length c rest (sl + 1)
          rw [hs] at h1
          have h1b : rest2.length ≤ rest.length := h1
          simp only [List.length_cons] at h
          omega
        have hqrest : '"' ∈ rest2 → False := by
          intro hm
          have hmem := scan_token_subset c rest (sl + 1) '"' (by rw [hs]; exact hm)
          exact hq (List.mem_cons_of_mem _ hmem)
        have hcnt : countNL rest2 = countNL rest := by
          have hnl := scan_token_countNL c rest (sl + 1) hcq
          rw [hs] at hnl
          exact hnl
        obtain ⟨ts, heq⟩ := ih rest2 sl hlen hqrest
        have harith : sl + 1 + countNL rest2 = sl + 1 + countNL (c :: rest) := by
          rw [hcnt, countNL_cons, if_neg hc]
          omega
        have heq2 : lex_loop fuel rest2 sl (sl + 1)
            = ts ++ [{ token_type := .Eof, lexeme := "EOF",
                       line := sl + 1 + countNL (c :: rest) }] := by
          rw [heq, harith]
        cases ot with
        | none => exact ⟨ts, heq2⟩
        | some t => exact ⟨t :: ts, congrArg (fun l => t :: l) heq2⟩

/-- Claim C9 (amended): every token stream ends in exactly one EOF token,
and when the source contains no string literal (no double quote) the EOF
line is one more than the number of newlines in the source.  Newlines inside
string literals do not advance the scanner's main line counter (only the
string token's own reported line), which is what the counterexample
exhibits. -/
theorem c9_eof_unique_and_line (s : String) :
    eofCount (lex s) = 1
    ∧ ((lex s).getLast?).map (fun t => t.token_type) = some TokenType.Eof
    ∧ (('"' ∈ s.data → False) →
        ((lex s).getLast?).map (fun t => t.line) = some (1 + countNL s.data)) := by
  obtain ⟨ts, ln, heq, hall⟩ := lex_loop_structure (s.data.length + 1) s.data 0 1 (by omega)
  refine ⟨?_, ?_, ?_⟩
  · rw [lex, heq]
    unfold eofCount
    rw [List.countP_append]
    have h0 : ts.countP (fun t => decide (t.token_type = TokenType.Eof)) = 0 :=
      List.countP_eq_zero.mpr (fun t ht => by simpa using hall t ht)
    simp [h0]
  · rw [lex, heq]
    simp [List.getLast?_concat]
  · intro hq
    obtain ⟨ts2, heq2⟩ := lex_loop_line (s.data.length + 1) s.data 0 (by omega) hq
    rw [lex, show (1 : Nat) = 0 + 1 from rfl, heq2]
    simp [List.getLast?_concat]

/-- Witness for C9's amended theorem on the quote-free source `ab, newline,
cd`. -/
theorem c9_witness :
    eofCount (lex "ab\ncd") = 1
    ∧ ((lex "ab\ncd").getLast?).map (fun t => t.line) = some (1 + countNL ("ab\ncd").data) := by
  have h := c9_eof_unique_and_line "ab\ncd"
  exact ⟨h.1, h.2.2 (by decide)⟩

/-- Counterexample to Claim C9 as stated: for a source consisting of a
string literal containing a newline followed by `x`, the EOF token reports
line 1 although one newline precedes the last character, so the claimed
formula (line of EOF = 1 + newline count, counting newlines inside strings)
fails. -/
theorem c9_counterexample :
    ((lex "\"\n\"x").getLast?).map (fun t => t.line) = some 1
    ∧ 1 + countNL ("\"\n\"x").data = 2
    ∧ ¬ (((lex "\"\n\"x").getLast?).map (fun t => t.line)
          = some (1 + countNL ("\"\n\"x").data)) := by
  refine ⟨by decide, by decide, by decide⟩


end Lox
